import Mathlib

/-!
Verification of the CLAP streaming data pipeline (`src/training/data.py`)
against its natural-language specification.

The Python source is shallowly embedded below: pure computations become Lean
functions on `Nat`/`Int`/`List`/`Rat`, Python dicts become association lists
with Python's insertion/overwrite/delete semantics, and operations that can
raise (`KeyError`, missing files, missing configuration) return
`Option`/`Except`.  Randomized choices (`random.sample`, `np.random.randint`,
`random.choice`, the coin flip in `preprocess`) are passed in as explicit
parameters ranging over exactly the values the corresponding generator can
produce, so that every theorem quantifies over all possible draws.
-/

set_option maxHeartbeats 1000000

deriving instance DecidableEq for Except

/-- Ceiling division on naturals: `math.ceil(a / b)` for `b > 0`
(the Python source applies `math.ceil` to an exact real quotient of
nonnegative integers). -/
def ceilDiv (a b : Nat) : Nat := (a + b - 1) / b

/-- `num_workers = max(1, args.workers)` from `get_wds_dataset` (line 345). -/
def numWorkersOf (workers : Nat) : Nat := max 1 workers

/-- The per-run epoch plan recorded by `get_wds_dataset` for the training
split: global batch size, per-worker batch count, final total batch count and
effective sample count. -/
structure EpochPlan where
  globalBatchSize : Nat
  numWorkerBatches : Nat
  numBatches : Nat
  numSamples : Nat
  deriving DecidableEq, Repr

/-- Embedding of the training-split epoch computation of `get_wds_dataset`
(lines 343-348 of `src/training/data.py`):

  global_batch_size = args.batch_size * args.world_size
  num_batches = math.ceil(num_samples / global_batch_size)
  num_workers = max(1, args.workers)
  num_worker_batches = math.ceil(num_batches / num_workers)
  num_batches = num_worker_batches * num_workers
  num_samples = num_batches * global_batch_size
-/
def epochPlan (numSamples batchSize worldSize workers : Nat) : EpochPlan :=
  let globalBatchSize := batchSize * worldSize
  let numBatches := ceilDiv numSamples globalBatchSize
  let numWorkers := numWorkersOf workers
  let numWorkerBatches := ceilDiv numBatches numWorkers
  let finalBatches := numWorkerBatches * numWorkers
  let finalSamples := finalBatches * globalBatchSize
  ⟨globalBatchSize, numWorkerBatches, finalBatches, finalSamples⟩

lemma le_ceilDiv_mul (a b : Nat) (hb : 0 < b) : a ≤ ceilDiv a b * b := by
  unfold ceilDiv
  rw [Nat.mul_comm]
  have h1 := Nat.div_add_mod (a + b - 1) b
  have h2 := Nat.mod_lt (a + b - 1) hb
  omega

/-- Python list/array slicing `xs[i:j]` for nonnegative bounds (out-of-range
upper bounds clamp to the length, as in Python). -/
def pySlice (xs : List Int) (i j : Nat) : List Int := (xs.take j).drop i

/-- Embedding of the length-normalization step of `preprocess`
(lines 226-241 of `src/training/data.py`).  `useFront` is the outcome of the
coin flip `np.random.rand() > 0.5` and `idx` is the draw
`np.random.randint(0, overflow + 1)`, so `idx ≤ audio.length - maxLen`
whenever the clipping branch is taken:

  if len(audio_data) > max_len:
      overflow = len(audio_data) - max_len
      idx = np.random.randint(0, overflow + 1)
      if np.random.rand() > 0.5:
          audio_data = audio_data[idx : idx + max_len]
      else:
          audio_data = audio_data[len(audio_data) + 1 - idx - max_len
                                  : len(audio_data) + 1 - idx]
  else:
      audio_data = np.pad(audio_data, (0, max_len - len(audio_data)),
                          mode="constant", constant_values=0)

All index arithmetic in the mirrored branch is nonnegative for
`idx ≤ overflow`, so natural subtraction agrees with Python's integer
arithmetic there. -/
def lengthNormalize (audio : List Int) (maxLen : Nat) (useFront : Bool) (idx : Nat) : List Int :=
  if maxLen < audio.length then
    if useFront then
      pySlice audio idx (idx + maxLen)
    else
      pySlice audio (audio.length + 1 - idx - maxLen) (audio.length + 1 - idx)
  else
    audio ++ List.replicate (maxLen - audio.length) 0

/-- C1: for positive totalSamples, batchSize, nodeCount and workerCount, the
epoch plan computed by `get_wds_dataset` satisfies
`globalBatchSize = batchSize * nodeCount`,
`perWorkerBatches = ceil(ceil(totalSamples / globalBatchSize) / workerCount)`,
`finalTotalBatches = perWorkerBatches * workerCount`,
`effectiveTotalSamples = finalTotalBatches * globalBatchSize`; hence
`finalTotalBatches * globalBatchSize ≥ totalSamples` and `finalTotalBatches`
is divisible by `workerCount`. -/
theorem epochPlan_reconciliation (t b n w : Nat)
    (ht : 1 ≤ t) (hb : 1 ≤ b) (hn : 1 ≤ n) (hw : 1 ≤ w) :
    (epochPlan t b n w).globalBatchSize = b * n ∧
    (epochPlan t b n w).numWorkerBatches = ceilDiv (ceilDiv t (b * n)) w ∧
    (epochPlan t b n w).numBatches = (epochPlan t b n w).numWorkerBatches * w ∧
    (epochPlan t b n w).numSamples = (epochPlan t b n w).numBatches * (b * n) ∧
    t ≤ (epochPlan t b n w).numBatches * (b * n) ∧
    w ∣ (epochPlan t b n w).numBatches := by
  have hmax : numWorkersOf w = w := Nat.max_eq_right hw
  have hg : 0 < b * n := Nat.mul_pos hb hn
  refine ⟨?_, ?_, ?_, ?_, ?_, ?_⟩
  · simp [epochPlan]
  · simp [epochPlan, hmax]
  · simp [epochPlan, hmax]
  · simp [epochPlan]
  · have h5a : t ≤ ceilDiv t (b * n) * (b * n) := le_ceilDiv_mul t (b * n) hg
    have h5b : ceilDiv t (b * n) ≤ ceilDiv (ceilDiv t (b * n)) w * w :=
      le_ceilDiv_mul (ceilDiv t (b * n)) w hw
    have h5c : ceilDiv t (b * n) * (b * n) ≤
        (ceilDiv (ceilDiv t (b * n)) w * w) * (b * n) :=
      Nat.mul_le_mul_right (b * n) h5b
    simp only [epochPlan, hmax]
    exact le_trans h5a h5c
  · simp only [epochPlan, hmax]
    exact dvd_mul_left w _

/-- Witness for C1 at totalSamples 10, batchSize 2, nodeCount 3,
workerCount 4. -/
theorem epochPlan_reconciliation_witness :
    ((1 ≤ 10 ∧ 1 ≤ 2 ∧ 1 ≤ 3 ∧ 1 ≤ (4 : Nat)) ∧
     ((epochPlan 10 2 3 4).globalBatchSize = 2 * 3 ∧
      (epochPlan 10 2 3 4).numWorkerBatches = ceilDiv (ceilDiv 10 (2 * 3)) 4 ∧
      (epochPlan 10 2 3 4).numBatches = (epochPlan 10 2 3 4).numWorkerBatches * 4 ∧
      (epochPlan 10 2 3 4).numSamples = (epochPlan 10 2 3 4).numBatches * (2 * 3) ∧
      10 ≤ (epochPlan 10 2 3 4).numBatches * (2 * 3) ∧
      4 ∣ (epochPlan 10 2 3 4).numBatches)) :=
  ⟨⟨by decide, by decide, by decide, by decide⟩,
   epochPlan_reconciliation 10 2 3 4 (by decide) (by decide) (by decide) (by decide)⟩

/-- C10: the worker count used in the epoch computation is clamped below at
one, so a configured worker count of 0 yields exactly the same plan as worker
count 1, and the divisor `max(1, workers)` is always positive (the ceiling
division never divides by zero). -/
theorem epochPlan_zero_workers_clamp (t b n : Nat) :
    epochPlan t b n 0 = epochPlan t b n 1 ∧ ∀ w : Nat, 0 < numWorkersOf w := by
  constructor
  · unfold epochPlan numWorkersOf
    norm_num
  · intro w
    exact Nat.lt_of_lt_of_le Nat.zero_lt_one (Nat.le_max_left 1 w)

/-- C2 (code bug): on input waveform `[1, 2, 3]` with target length
`max_len = 2`, mirrored branch (`np.random.rand() ≤ 0.5`) and offset draw
`idx = 0`, the slice `audio[len+1-idx-max_len : len+1-idx]` clamps at the
array end and yields `[3]`, of length `1 = max_len - 1`, violating the
specified invariant that the output length is always exactly `max_len`
(the padding branch and the front-window branch do produce exactly
`max_len` samples; the mirrored branch has an off-by-one at `idx = 0`). -/
theorem lengthNormalize_mirror_zero_offset_bug :
    lengthNormalize [1, 2, 3] 2 false 0 = [3] ∧
    (lengthNormalize [1, 2, 3] 2 false 0).length = 1 ∧
    ¬(lengthNormalize [1, 2, 3] 2 false 0).length = 2 := by
  refine ⟨?_, ?_, ?_⟩ <;> decide

/-! ## Python dictionaries as association lists

`dict` values appearing in `data.py` (the loaded `sizes.json` manifest, the
raw webdataset record, the dicts built by `sample_prop`) are embedded as
association lists with Python's semantics: lookup of the unique entry for a
key, assignment that overwrites in place or appends a fresh key at the end,
and `del` that removes the entry. -/

/-- Python `d[k]` as an `Option` (`none` models a raised `KeyError`). -/
def pyGet {V : Type} (d : List (String × V)) (k : String) : Option V :=
  match d with
  | [] => none
  | (k', v) :: rest => if k' = k then some v else pyGet rest k

/-- Python `d[k] = v`: overwrite in place if the key is present, else append. -/
def pyInsert {V : Type} (d : List (String × V)) (k : String) (v : V) : List (String × V) :=
  match d with
  | [] => [(k, v)]
  | (k', v') :: rest => if k' = k then (k', v) :: rest else (k', v') :: pyInsert rest k v

/-- Python `del d[k]`: remove the entry for `k` (keys are unique in a dict). -/
def pyDelete {V : Type} (d : List (String × V)) (k : String) : List (String × V) :=
  match d with
  | [] => []
  | (k', v') :: rest => if k' = k then rest else (k', v') :: pyDelete rest k

lemma pyGet_isSome_of_mem {V : Type} {d : List (String × V)} {k : String}
    (h : k ∈ d.map Prod.fst) : (pyGet d k).isSome := by
  induction d with
  | nil => simp at h
  | cons p rest ih =>
    obtain ⟨k', v⟩ := p
    rw [List.map_cons] at h
    rcases List.mem_cons.mp h with h | h
    · subst h
      simp [pyGet]
    · by_cases hk : k' = k
      · simp [pyGet, hk]
      · simp only [pyGet]
        rw [if_neg hk]
        exact ih h

lemma pyGet_eq_none_of_not_mem {V : Type} {d : List (String × V)} {k : String}
    (h : k ∉ d.map Prod.fst) : pyGet d k = none := by
  induction d with
  | nil => rfl
  | cons p rest ih =>
    obtain ⟨k', v⟩ := p
    rw [List.map_cons] at h
    have h1 : ¬k' = k := fun e => h (by simp [e])
    have h2 : k ∉ rest.map Prod.fst := fun e => h (List.mem_cons_of_mem _ e)
    simp only [pyGet]
    rw [if_neg h1]
    exact ih h2

lemma pyGet_pyInsert_self {V : Type} (d : List (String × V)) (k : String) (v : V) :
    pyGet (pyInsert d k v) k = some v := by
  induction d with
  | nil => simp [pyInsert, pyGet]
  | cons p rest ih =>
    obtain ⟨k', v'⟩ := p
    by_cases hk : k' = k
    · simp only [pyInsert]
      rw [if_pos hk]
      simp only [pyGet]
      rw [if_pos hk]
    · simp only [pyInsert]
      rw [if_neg hk]
      simp only [pyGet]
      rw [if_neg hk]
      exact ih

lemma pyGet_pyInsert_ne {V : Type} (d : List (String × V)) (k q : String) (v : V)
    (h : q ≠ k) : pyGet (pyInsert d k v) q = pyGet d q := by
  induction d with
  | nil =>
    simp only [pyInsert, pyGet]
    rw [if_neg (fun e : k = q => h e.symm)]
  | cons p rest ih =>
    obtain ⟨k', v'⟩ := p
    by_cases hk : k' = k
    · simp only [pyInsert]
      rw [if_pos hk]
      simp only [pyGet]
      rw [if_neg (fun e : k' = q => h (e.symm.trans hk)),
          if_neg (fun e : k' = q => h (e.symm.trans hk))]
    · simp only [pyInsert]
      rw [if_neg hk]
      simp only [pyGet]
      by_cases hq : k' = q
      · rw [if_pos hq, if_pos hq]
      · rw [if_neg hq, if_neg hq]
        exact ih

lemma pyGet_pyDelete_ne {V : Type} (d : List (String × V)) (k q : String)
    (h : q ≠ k) : pyGet (pyDelete d k) q = pyGet d q := by
  induction d with
  | nil => rfl
  | cons p rest ih =>
    obtain ⟨k', v'⟩ := p
    by_cases hk : k' = k
    · simp only [pyDelete]
      rw [if_pos hk]
      simp only [pyGet]
      rw [if_neg (fun e : k' = q => h (e.symm.trans hk))]
    · simp only [pyDelete]
      rw [if_neg hk]
      simp only [pyGet]
      by_cases hq : k' = q
      · rw [if_pos hq, if_pos hq]
      · rw [if_neg hq, if_neg hq]
        exact ih

lemma pyGet_pyDelete_self {V : Type} (d : List (String × V)) (k : String)
    (h : (d.map Prod.fst).Nodup) : pyGet (pyDelete d k) k = none := by
  induction d with
  | nil => rfl
  | cons p rest ih =>
    obtain ⟨k', v'⟩ := p
    rw [List.map_cons] at h
    have h1 : k' ∉ rest.map Prod.fst := (List.nodup_cons.mp h).1
    have h2 : (rest.map Prod.fst).Nodup := (List.nodup_cons.mp h).2
    by_cases hk : k' = k
    · simp only [pyDelete]
      rw [if_pos hk]
      exact pyGet_eq_none_of_not_mem (hk ▸ h1)
    · simp only [pyDelete]
      rw [if_neg hk]
      simp only [pyGet]
      rw [if_neg hk]
      exact ih h2

lemma keys_pyInsert_mem {V : Type} (d : List (String × V)) (k : String) (v : V)
    (h : k ∈ d.map Prod.fst) : (pyInsert d k v).map Prod.fst = d.map Prod.fst := by
  induction d with
  | nil => simp at h
  | cons p rest ih =>
    obtain ⟨k', v'⟩ := p
    by_cases hk : k' = k
    · simp only [pyInsert]
      rw [if_pos hk]
      simp
    · rw [List.map_cons] at h
      rcases List.mem_cons.mp h with h | h
      · exact absurd h.symm hk
      · simp only [pyInsert]
        rw [if_neg hk]
        simp only [List.map_cons]
        rw [ih h]

lemma pyInsert_eq_append {V : Type} (d : List (String × V)) (k : String) (v : V)
    (h : k ∉ d.map Prod.fst) : pyInsert d k v = d ++ [(k, v)] := by
  induction d with
  | nil => rfl
  | cons p rest ih =>
    obtain ⟨k', v'⟩ := p
    rw [List.map_cons] at h
    have h1 : ¬k' = k := fun e => h (by simp [e])
    have h2 : k ∉ rest.map Prod.fst := fun e => h (List.mem_cons_of_mem _ e)
    simp only [pyInsert]
    rw [if_neg h1, ih h2]
    simp

lemma nodup_keys_pyInsert {V : Type} (d : List (String × V)) (k : String) (v : V)
    (h : (d.map Prod.fst).Nodup) : ((pyInsert d k v).map Prod.fst).Nodup := by
  by_cases hk : k ∈ d.map Prod.fst
  · rw [keys_pyInsert_mem d k v hk]
    exact h
  · rw [pyInsert_eq_append d k v hk]
    simp [List.nodup_append, h, hk]

lemma pyDelete_sublist {V : Type} (d : List (String × V)) (k : String) :
    (pyDelete d k).Sublist d := by
  induction d with
  | nil => simp [pyDelete]
  | cons p rest ih =>
    obtain ⟨k', v'⟩ := p
    by_cases hk : k' = k
    · simpa [pyDelete, hk] using List.sublist_cons_self (k', v') rest
    · simpa [pyDelete, hk] using List.Sublist.cons₂ (k', v') ih

lemma nodup_keys_pyDelete {V : Type} (d : List (String × V)) (k : String)
    (h : (d.map Prod.fst).Nodup) : ((pyDelete d k).map Prod.fst).Nodup :=
  ((pyDelete_sublist d k).map Prod.fst).nodup h

/-! ## Path manipulation (`os.path.split` / `basename` / `dirname` / `join`)

These embed the posix implementations used by the source:
`os.path.split(p)` splits after the last `/` and strips trailing slashes from
the head unless the head is all slashes; `os.path.join(a, b)` returns `b` if
`b` is absolute, else concatenates with a separator unless `a` is empty or
already ends with `/`. -/

/-- Tests that a character is not the path separator. -/
def notSlash (c : Char) : Bool := c != '/'

/-- Tests that a character is the path separator. -/
def isSlash (c : Char) : Bool := c == '/'

/-- Characters after the last `/` (the `tail` of `os.path.split`). -/
def baseChars (cs : List Char) : List Char :=
  (cs.reverse.takeWhile notSlash).reverse

/-- Characters before the last `/`, with trailing slashes stripped unless the
head consists only of slashes (the `head` of `os.path.split`). -/
def headChars (cs : List Char) : List Char :=
  let h := (cs.reverse.dropWhile notSlash).reverse
  if h.any notSlash then (h.reverse.dropWhile isSlash).reverse else h

/-- `os.path.basename` / `os.path.split(p)[1]`. -/
def basename (s : String) : String := ⟨baseChars s.data⟩

/-- `os.path.dirname` / `os.path.split(p)[0]`. -/
def dirname (s : String) : String := ⟨headChars s.data⟩

/-- `os.path.join(a, b)` on character lists. -/
def joinChars (a b : List Char) : List Char :=
  if b.head? = some '/' then b
  else if a = [] ∨ a.reverse.head? = some '/' then a ++ b
  else a ++ '/' :: b

/-- `os.path.join(a, b)` for posix paths. -/
def pathJoin (a b : String) : String := ⟨joinChars a.data b.data⟩

/-! ## Brace expansion (the `braceexpand` dependency)

`get_dataset_size` expands a single shard pattern with
`braceexpand.braceexpand`.  The model below implements the alternation
fragment (`pre{alt1,alt2,...}post`, possibly nested), which covers the shard
patterns this repository uses; a pattern without braces (or with unbalanced
braces) is returned literally. -/

/-- Scan the characters following an opening brace, splitting alternatives at
top-level commas until the matching closing brace; returns the alternatives
and the remaining suffix, or `none` if the brace is unmatched. -/
def scanAlts : List Char → Nat → List Char → List (List Char) →
    Option (List (List Char) × List Char)
  | [], _, _, _ => none
  | c :: rest, depth, cur, acc =>
    if c = '\x7d' then
      if depth = 0 then some (acc ++ [cur], rest)
      else scanAlts rest (depth - 1) (cur ++ [c]) acc
    else if c = '\x7b' then scanAlts rest (depth + 1) (cur ++ [c]) acc
    else if c = ',' ∧ depth = 0 then scanAlts rest depth [] (acc ++ [cur])
    else scanAlts rest depth (cur ++ [c]) acc

/-- Expand the leftmost brace group and recurse on each alternative; `fuel`
bounds the recursion depth (each expansion step strictly shrinks the string,
so `cs.length` is always enough fuel). -/
def braceExpandAux : Nat → List Char → List (List Char)
  | 0, cs => [cs]
  | Nat.succ fuel, cs =>
    let pre := cs.takeWhile (fun c => c ≠ '\x7b')
    match cs.dropWhile (fun c => c ≠ '\x7b') with
    | [] => [cs]
    | _ :: body =>
      match scanAlts body 0 [] [] with
      | none => [cs]
      | some (alts, suffix) =>
        (alts.map (fun a => braceExpandAux fuel (pre ++ a ++ suffix))).foldr (· ++ ·) []

/-- `list(braceexpand.braceexpand(s))`. -/
def braceExpand (s : String) : List String :=
  (braceExpandAux s.data.length s.data).map (fun cs => ⟨cs⟩)

/-! ## `get_dataset_size` (lines 62-101 of `src/training/data.py`)

The file-system state visible to `get_dataset_size` is embedded as the
*contents* of the three possible size sources: the manifest passed via
`sizefilepath_` (if any), the dataset directory's `sizes.json` (if it
exists), and the directory's `__len__` fallback count file (if it exists).
Only the local path is modelled (`is_local=True`); the remote branch merely
downloads the same manifest before reaching the identical logic. -/

structure FS where
  providedManifest : Option (List (String × Nat))
  dirManifest : Option (List (String × Nat))
  dirLen : Option Nat

inductive SizeErr
  /-- The `Exception("Cannot find sizes file for dataset. ...")` raised when
  neither `sizes.json` nor `__len__` exists. -/
  | cannotFindSizes
  /-- A `KeyError` from `sizes[os.path.basename(shard)]`. -/
  | keyError
  deriving DecidableEq, Repr

/-- `sum([int(sizes[os.path.basename(shard)]) for shard in shards_list])`,
with `none` modelling the `KeyError` raised on a missing manifest entry. -/
def sumSizes (m : List (String × Nat)) : List String → Option Nat
  | [] => some 0
  | sh :: rest =>
    match pyGet m (basename sh), sumSizes m rest with
    | some v, some t => some (v + t)
    | _, _ => none

/-- The single-pattern branch of `get_dataset_size` (lines 75-97): expand the
brace pattern, then sum manifest entries from `sizefilepath_` if given, else
from the directory's `sizes.json`, else read the `__len__` total, else raise;
return the total together with the number of expanded shards. -/
def get_dataset_size_single (fs : FS) (pattern : String) : Except SizeErr (Nat × Nat) :=
  let shardsList := braceExpand pattern
  match fs.providedManifest with
  | some m =>
    match sumSizes m shardsList with
    | some t => Except.ok (t, shardsList.length)
    | none => Except.error SizeErr.keyError
  | none =>
    match fs.dirManifest with
    | some m =>
      match sumSizes m shardsList with
      | some t => Except.ok (t, shardsList.length)
      | none => Except.error SizeErr.keyError
    | none =>
      match fs.dirLen with
      | some t => Except.ok (t, shardsList.length)
      | none => Except.error SizeErr.cannotFindSizes

/-- The list branch of `get_dataset_size` (lines 71-74): resolve each element
recursively (each element is a single pattern) and sum the sizes,
propagating the first raised exception. -/
def get_dataset_size_list (fs : FS) : List String → Except SizeErr Nat
  | [] => Except.ok 0
  | s :: rest =>
    match get_dataset_size_single fs s with
    | Except.error e => Except.error e
    | Except.ok (t, _) =>
      match get_dataset_size_list fs rest with
      | Except.error e => Except.error e
      | Except.ok m => Except.ok (t + m)

/-- `get_dataset_size(shards, ...)`: `shards` is either a list of patterns
(`Sum.inl`) or a single pattern string (`Sum.inr`).  For a list the function
returns `(sum(size_list), len(shards))` (line 99); for a single pattern it
returns `(total_size, num_shards)` (line 101). -/
def get_dataset_size (fs : FS) (shards : Sum (List String) String) :
    Except SizeErr (Nat × Nat) :=
  match shards with
  | Sum.inl l =>
    match get_dataset_size_list fs l with
    | Except.error e => Except.error e
    | Except.ok t => Except.ok (t, l.length)
  | Sum.inr p => get_dataset_size_single fs p

lemma sumSizes_eq (m : List (String × Nat)) :
    ∀ l : List String, (∀ sh ∈ l, (pyGet m (basename sh)).isSome) →
    sumSizes m l = some ((l.map (fun sh => (pyGet m (basename sh)).getD 0)).sum) := by
  intro l
  induction l with
  | nil => intro _; rfl
  | cons sh rest ih =>
    intro h
    obtain ⟨v, hv⟩ := Option.isSome_iff_exists.mp (h sh (List.mem_cons_self _ _))
    have hrest := ih (fun s hs => h s (List.mem_cons_of_mem _ hs))
    simp [sumSizes, hv, hrest]

/-- C4: for a single shard pattern whose brace expansion is fully covered by
the manifest passed via `sizefilepath_`, `get_dataset_size` returns the sum
of the manifest entries of the expanded shards (looked up by basename)
together with the number of expanded shards. -/
theorem get_dataset_size_single_manifest (mf : List (String × Nat))
    (dm : Option (List (String × Nat))) (dl : Option Nat) (pat : String)
    (hcov : ∀ sh ∈ braceExpand pat, (pyGet mf (basename sh)).isSome) :
    get_dataset_size ⟨some mf, dm, dl⟩ (Sum.inr pat) =
      Except.ok (((braceExpand pat).map (fun sh => (pyGet mf (basename sh)).getD 0)).sum,
                 (braceExpand pat).length) := by
  simp [get_dataset_size, get_dataset_size_single,
        sumSizes_eq mf (braceExpand pat) hcov]

/-- Witness for C4: the spec scenario, manifest
`[("a.tar", 100), ("b.tar", 150)]` with pattern `"{a,b}.tar"` yields
`(250, 2)`. -/
theorem get_dataset_size_single_manifest_witness :
    (∀ sh ∈ braceExpand "\x7ba,b\x7d.tar",
        (pyGet [("a.tar", 100), ("b.tar", 150)] (basename sh)).isSome) ∧
    get_dataset_size ⟨some [("a.tar", 100), ("b.tar", 150)], none, none⟩
        (Sum.inr "\x7ba,b\x7d.tar") = Except.ok (250, 2) :=
  ⟨by decide,
   (get_dataset_size_single_manifest [("a.tar", 100), ("b.tar", 150)] none none
      "\x7ba,b\x7d.tar" (by decide)).trans (by decide)⟩

/-- C5 (counterexample): for the list input `["{a,b}.tar", "c.tar"]` the code
returns shard count `2 = len(shards)` (the number of list elements), although
the per-element resolutions expand to `2 + 1 = 3` concrete shards; the claim
that the returned count is the sum of the per-element shard counts is false
(the sizes, by contrast, are summed: `250 + 50 = 300`). -/
theorem get_dataset_size_list_count_counterexample :
    get_dataset_size ⟨some [("a.tar", 100), ("b.tar", 150), ("c.tar", 50)], none, none⟩
        (Sum.inl ["\x7ba,b\x7d.tar", "c.tar"]) = Except.ok (300, 2) ∧
    (braceExpand "\x7ba,b\x7d.tar").length + (braceExpand "c.tar").length = 3 ∧
    (2 : Nat) ≠ 3 :=
  ⟨by decide, by decide, by decide⟩

lemma get_dataset_size_list_eq (fs : FS) (nf cf : String → Nat) :
    ∀ l : List String,
    (∀ s ∈ l, get_dataset_size_single fs s = Except.ok (nf s, cf s)) →
    get_dataset_size_list fs l = Except.ok ((l.map nf).sum) := by
  intro l
  induction l with
  | nil => intro _; rfl
  | cons s rest ih =>
    intro h
    have hs := h s (List.mem_cons_self _ _)
    have hrest := ih (fun t ht => h t (List.mem_cons_of_mem _ ht))
    simp [get_dataset_size_list, hs, hrest]

/-- C5 (amended): when `shards` is a list, `get_dataset_size` resolves each
element independently and returns the sum of the per-element sizes, but the
returned shard count is `len(shards)`, the number of list elements — not the
sum of the per-element shard counts. -/
theorem get_dataset_size_list_sums (fs : FS) (l : List String) (nf cf : String → Nat)
    (h : ∀ s ∈ l, get_dataset_size_single fs s = Except.ok (nf s, cf s)) :
    get_dataset_size fs (Sum.inl l) = Except.ok ((l.map nf).sum, l.length) := by
  simp [get_dataset_size, get_dataset_size_list_eq fs nf cf l h]

/-- Witness for the amended C5 on `["{a,b}.tar", "c.tar"]`. -/
theorem get_dataset_size_list_sums_witness :
    (∀ s ∈ ["\x7ba,b\x7d.tar", "c.tar"],
        get_dataset_size_single
            ⟨some [("a.tar", 100), ("b.tar", 150), ("c.tar", 50)], none, none⟩ s =
          Except.ok ((fun t => if t = "\x7ba,b\x7d.tar" then 250 else 50) s,
                     (fun t => if t = "\x7ba,b\x7d.tar" then 2 else 1) s)) ∧
    get_dataset_size ⟨some [("a.tar", 100), ("b.tar", 150), ("c.tar", 50)], none, none⟩
        (Sum.inl ["\x7ba,b\x7d.tar", "c.tar"]) = Except.ok (300, 2) :=
  ⟨by decide,
   (get_dataset_size_list_sums
      ⟨some [("a.tar", 100), ("b.tar", 150), ("c.tar", 50)], none, none⟩
      ["\x7ba,b\x7d.tar", "c.tar"]
      (fun t => if t = "\x7ba,b\x7d.tar" then 250 else 50)
      (fun t => if t = "\x7ba,b\x7d.tar" then 2 else 1)
      (by decide)).trans (by decide)⟩

inductive WdsErr
  /-- An exception propagated out of `get_dataset_size`. -/
  | sizeErr (e : SizeErr)
  /-- The `RuntimeError` raised when the training split has no resolvable
  sample count and `--train-num-samples` was not specified. -/
  | trainNumSamplesRequired
  deriving DecidableEq, Repr

/-- Embedding of the sample-count resolution of `get_wds_dataset`
(lines 287-300 of `src/training/data.py`) on the `proportion == 1.0` path
(the `sample_prop` branch reads the same sizes file and likewise raises when
it is absent):

  num_samples, num_shards = get_dataset_size(input_shards, ...)
  if not num_samples:
      if is_train:
          num_samples = args.train_num_samples
          if not num_samples:
              raise RuntimeError(...)
      else:
          num_samples = args.val_num_samples or 0

Python's falsy test on the integer is `n = 0`; `trainNumSamples`/
`valNumSamples` model `args.train_num_samples` / `args.val_num_samples`
(with `none` for `None` and `some 0` equally falsy). -/
def resolveNumSamples (fs : FS) (shards : Sum (List String) String) (isTrain : Bool)
    (trainNumSamples valNumSamples : Option Nat) : Except WdsErr Nat :=
  match get_dataset_size fs shards with
  | Except.error e => Except.error (WdsErr.sizeErr e)
  | Except.ok (n, _) =>
    if n = 0 then
      if isTrain then
        match trainNumSamples with
        | some m =>
          if m = 0 then Except.error WdsErr.trainNumSamplesRequired else Except.ok m
        | none => Except.error WdsErr.trainNumSamplesRequired
      else Except.ok (valNumSamples.getD 0)
    else Except.ok n

/-- C6 (counterexample): with neither a sizes manifest nor a `__len__`
fallback present, sample-count resolution fails for the *evaluation* split
too (`get_dataset_size` raises its "Cannot find sizes file" exception before
the train/eval distinction is ever reached), contradicting the claim that
evaluation-split construction does not fail and treats the count as
unknown. -/
theorem evalSplit_missing_sizes_fails :
    resolveNumSamples ⟨none, none, none⟩ (Sum.inr "a.tar") false none (some 5) =
      Except.error (WdsErr.sizeErr SizeErr.cannotFindSizes) := by decide

/-- C6 (amended): when neither a sizes manifest nor a fallback count file
exists, `get_dataset_size` raises for both splits alike.  The train/eval
distinction the spec describes applies only when a sample count *is*
resolved but is zero (falsy): then the training split fails with
`RuntimeError` unless `--train-num-samples` is given, while the evaluation
split falls back to `args.val_num_samples or 0` and exhausts the stream
lazily. -/
theorem resolveNumSamples_missing_sizes (pat : String) (isTrain : Bool)
    (tns vns : Option Nat) :
    resolveNumSamples ⟨none, none, none⟩ (Sum.inr pat) isTrain tns vns =
      Except.error (WdsErr.sizeErr SizeErr.cannotFindSizes) ∧
    resolveNumSamples ⟨none, none, some 0⟩ (Sum.inr pat) true none vns =
      Except.error WdsErr.trainNumSamplesRequired ∧
    resolveNumSamples ⟨none, none, some 0⟩ (Sum.inr pat) false tns vns =
      Except.ok (vns.getD 0) := by
  refine ⟨?_, ?_, ?_⟩ <;>
    simp [resolveNumSamples, get_dataset_size, get_dataset_size_single]

/-! ## `sample_prop` (lines 176-195 of `src/training/data.py`)

The proportional sampling variant.  The manifest contents stand in for the
already-loaded `sizes.json` (`load_dict`), and `subkeys` is the draw produced
by `random.sample(file_path_dict.keys(), L)` — in the theorems it ranges over
exactly the valid draws: a duplicate-free list of `L` keys of
`file_path_dict`.  The Python proportion is passed as an exact fraction
`pNum / pDen`; `int(len(file_path_dict) * proportion)` truncates a
nonnegative value toward zero, which is exactly natural floor division
`(len * pNum) / pDen`. -/

/-- `file_path_dict = {os.path.split(inputs[i])[1]: os.path.split(inputs[i])[0]
for i in range(len(inputs))}` (line 180). -/
def filePathDict (inputs : List String) : List (String × String) :=
  inputs.foldl (fun d inp => pyInsert d (basename inp) (dirname inp)) []

/-- The loop of `sample_prop` (lines 192-194), building `sampled_size_dict`
and `sampled_filepath_dict` over the drawn `subkeys`; `none` models a raised
`KeyError`. -/
def buildSampled (loadDict : List (String × Nat)) (fpd : List (String × String)) :
    List String → List (String × Nat) → List (String × String) →
    Option (List (String × Nat) × List (String × String))
  | [], ssd, sfd => some (ssd, sfd)
  | k :: rest, ssd, sfd =>
    match pyGet loadDict k, pyGet fpd k with
    | some sz, some fp =>
      buildSampled loadDict fpd rest (pyInsert ssd k sz) (pyInsert sfd k fp)
    | _, _ => none

/-- `sample_prop(sizefile, inputs, proportion)` on the local path: returns
`(sum(sampled_size_dict.values()), L,
[os.path.join(v, k) for k, v in sampled_filepath_dict.items()],
sampled_size_dict)`. -/
def sample_prop (loadDict : List (String × Nat)) (inputs : List String)
    (pNum pDen : Nat) (subkeys : List String) :
    Except Unit (Nat × Nat × List String × List (String × Nat)) :=
  let fpd := filePathDict inputs
  let L := (fpd.length * pNum) / pDen
  match buildSampled loadDict fpd subkeys [] [] with
  | none => Except.error ()
  | some (ssd, sfd) =>
    Except.ok ((ssd.map Prod.snd).sum, L, sfd.map (fun kv => pathJoin kv.2 kv.1), ssd)

lemma takeWhile_all {α : Type} (p : α → Bool) :
    ∀ l : List α, (∀ x ∈ l, p x = true) → l.takeWhile p = l := by
  intro l
  induction l with
  | nil => intro _; rfl
  | cons a t ih =>
    intro h
    rw [List.takeWhile_cons, if_pos (h a (List.mem_cons_self _ _)),
        ih (fun x hx => h x (List.mem_cons_of_mem _ hx))]

lemma takeWhile_append_stop {α : Type} (p : α → Bool) (a : α) :
    ∀ (l1 l2 : List α), (∀ x ∈ l1, p x = true) → p a = false →
    (l1 ++ a :: l2).takeWhile p = l1 := by
  intro l1
  induction l1 with
  | nil =>
    intro l2 _ ha
    rw [List.nil_append, List.takeWhile_cons, if_neg (by simp [ha])]
  | cons b t ih =>
    intro l2 h ha
    rw [List.cons_append, List.takeWhile_cons, if_pos (h b (List.mem_cons_self _ _)),
        ih l2 (fun x hx => h x (List.mem_cons_of_mem _ hx)) ha]

lemma mem_takeWhile_pred {α : Type} (p : α → Bool) :
    ∀ (l : List α) (c : α), c ∈ l.takeWhile p → p c = true := by
  intro l
  induction l with
  | nil => intro c hc; simp [List.takeWhile] at hc
  | cons a t ih =>
    intro c hc
    rw [List.takeWhile_cons] at hc
    by_cases ha : p a = true
    · rw [if_pos ha] at hc
      rcases List.mem_cons.mp hc with h | h
      · exact h ▸ ha
      · exact ih c h
    · rw [if_neg ha] at hc
      simp at hc

lemma string_mk_data (s : String) : (⟨s.data⟩ : String) = s := rfl

lemma basename_no_slash (s : String) : ∀ c ∈ (basename s).data, c ≠ '/' := by
  intro c hc
  have hc' : c ∈ s.data.reverse.takeWhile notSlash := by
    simpa [basename, baseChars] using hc
  have := mem_takeWhile_pred notSlash _ c hc'
  simpa [notSlash] using this

lemma baseChars_joinChars (a b : List Char) (hb : ∀ c ∈ b, c ≠ '/') :
    baseChars (joinChars a b) = b := by
  have hbn : ∀ c ∈ b.reverse, notSlash c = true := by
    intro c hc
    simpa [notSlash] using hb c (List.mem_reverse.mp hc)
  have hslash : notSlash '/' = false := by simp [notSlash]
  unfold joinChars
  have h1 : ¬b.head? = some '/' := by
    cases b with
    | nil => simp
    | cons c t =>
      simp only [List.head?_cons, Option.some.injEq]
      exact hb c (List.mem_cons_self _ _)
  rw [if_neg h1]
  by_cases h2 : a = [] ∨ a.reverse.head? = some '/'
  · rw [if_pos h2]
    rcases h2 with h2 | h2
    · subst h2
      rw [List.nil_append]
      unfold baseChars
      rw [takeWhile_all notSlash _ hbn, List.reverse_reverse]
    · obtain ⟨t, ht⟩ : ∃ t, a.reverse = '/' :: t := by
        cases ha : a.reverse with
        | nil => rw [ha] at h2; simp at h2
        | cons c t =>
          rw [ha] at h2
          simp only [List.head?_cons, Option.some.injEq] at h2
          exact ⟨t, by rw [h2]⟩
      unfold baseChars
      rw [List.reverse_append, ht, takeWhile_append_stop notSlash '/' _ t hbn hslash,
          List.reverse_reverse]
  · rw [if_neg h2]
    unfold baseChars
    rw [List.reverse_append, List.reverse_cons, List.append_assoc, List.singleton_append,
        takeWhile_append_stop notSlash '/' _ a.reverse hbn hslash, List.reverse_reverse]

lemma basename_pathJoin (v k : String) (hk : ∀ c ∈ k.data, c ≠ '/') :
    basename (pathJoin v k) = k := by
  have h : baseChars (joinChars v.data k.data) = k.data := baseChars_joinChars _ _ hk
  calc basename (pathJoin v k) = (⟨baseChars (joinChars v.data k.data)⟩ : String) := rfl
    _ = (⟨k.data⟩ : String) := by rw [h]
    _ = k := string_mk_data k

lemma foldl_pyInsert_basename (inputs : List String) :
    ∀ acc : List (String × String),
    (∀ i ∈ inputs, basename i ∉ acc.map Prod.fst) →
    (inputs.map basename).Nodup →
    inputs.foldl (fun d inp => pyInsert d (basename inp) (dirname inp)) acc =
      acc ++ inputs.map (fun i => (basename i, dirname i)) := by
  induction inputs with
  | nil => intro acc _ _; simp
  | cons i rest ih =>
    intro acc hdisj hnd
    rw [List.map_cons] at hnd
    have hnd' := List.nodup_cons.mp hnd
    rw [List.foldl_cons, pyInsert_eq_append acc _ _ (hdisj i (List.mem_cons_self _ _))]
    have hdisj' : ∀ j ∈ rest,
        basename j ∉ (acc ++ [(basename i, dirname i)]).map Prod.fst := by
      intro j hj hmem
      rw [List.map_append] at hmem
      rcases List.mem_append.mp hmem with hm | hm
      · exact hdisj j (List.mem_cons_of_mem _ hj) hm
      · simp only [List.map_cons, List.map_nil, List.mem_singleton] at hm
        exact hnd'.1 (hm ▸ List.mem_map_of_mem basename hj)
    rw [ih (acc ++ [(basename i, dirname i)]) hdisj' hnd'.2]
    simp

lemma filePathDict_eq (inputs : List String) (h : (inputs.map basename).Nodup) :
    filePathDict inputs = inputs.map (fun i => (basename i, dirname i)) := by
  have := foldl_pyInsert_basename inputs [] (by intro i _; simp) h
  simpa [filePathDict] using this

lemma filePathDict_keys (inputs : List String) (h : (inputs.map basename).Nodup) :
    (filePathDict inputs).map Prod.fst = inputs.map basename := by
  rw [filePathDict_eq inputs h, List.map_map]
  rfl

lemma buildSampled_eq (loadDict : List (String × Nat)) (fpd : List (String × String)) :
    ∀ (subkeys : List String) (ssd : List (String × Nat)) (sfd : List (String × String)),
    subkeys.Nodup →
    (∀ k ∈ subkeys, k ∉ ssd.map Prod.fst) →
    (∀ k ∈ subkeys, k ∉ sfd.map Prod.fst) →
    (∀ k ∈ subkeys, (pyGet loadDict k).isSome) →
    (∀ k ∈ subkeys, (pyGet fpd k).isSome) →
    buildSampled loadDict fpd subkeys ssd sfd =
      some (ssd ++ subkeys.map (fun k => (k, (pyGet loadDict k).getD 0)),
            sfd ++ subkeys.map (fun k => (k, (pyGet fpd k).getD ""))) := by
  intro subkeys
  induction subkeys with
  | nil => intro ssd sfd _ _ _ _ _; simp [buildSampled]
  | cons k rest ih =>
    intro ssd sfd hnd h1 h2 h3 h4
    obtain ⟨sz, hsz⟩ := Option.isSome_iff_exists.mp (h3 k (List.mem_cons_self _ _))
    obtain ⟨fp, hfp⟩ := Option.isSome_iff_exists.mp (h4 k (List.mem_cons_self _ _))
    have hnd' := List.nodup_cons.mp hnd
    have hne : ∀ j ∈ rest, j ≠ k := fun j hj e => hnd'.1 (e ▸ hj)
    have h1' : ∀ j ∈ rest, j ∉ (ssd ++ [(k, sz)]).map Prod.fst := by
      intro j hj hmem
      rw [List.map_append] at hmem
      rcases List.mem_append.mp hmem with hm | hm
      · exact h1 j (List.mem_cons_of_mem _ hj) hm
      · simp only [List.map_cons, List.map_nil, List.mem_singleton] at hm
        exact hne j hj hm
    have h2' : ∀ j ∈ rest, j ∉ (sfd ++ [(k, fp)]).map Prod.fst := by
      intro j hj hmem
      rw [List.map_append] at hmem
      rcases List.mem_append.mp hmem with hm | hm
      · exact h2 j (List.mem_cons_of_mem _ hj) hm
      · simp only [List.map_cons, List.map_nil, List.mem_singleton] at hm
        exact hne j hj hm
    simp only [buildSampled, hsz, hfp]
    rw [pyInsert_eq_append ssd k sz (h1 k (List.mem_cons_self _ _)),
        pyInsert_eq_append sfd k fp (h2 k (List.mem_cons_self _ _)),
        ih (ssd ++ [(k, sz)]) (sfd ++ [(k, fp)]) hnd'.2 h1' h2'
          (fun j hj => h3 j (List.mem_cons_of_mem _ hj))
          (fun j hj => h4 j (List.mem_cons_of_mem _ hj))]
    simp [hsz, hfp]

/-- C7 (counterexample): `sample_prop` keys `file_path_dict` by *basename*,
so the two distinct shards `"x/a.tar"` and `"y/a.tar"` (N = 2) collapse into
a single dict entry and — with proportion `p = 1` and the only possible
draw — only `1` shard is returned (the later path `"y/a.tar"` having
overwritten the earlier one), not `⌊N·p⌋ = 2` as claimed. -/
theorem sample_prop_duplicate_basename_counterexample :
    sample_prop [("a.tar", 7)] ["x/a.tar", "y/a.tar"] 1 1 ["a.tar"] =
      Except.ok (7, 1, ["y/a.tar"], [("a.tar", 7)]) ∧
    (["x/a.tar", "y/a.tar"] : List String).length = 2 ∧
    (1 : ℕ) ≠ ⌊(2 : ℚ) * ((1 : ℚ) / 1)⌋₊ := by
  refine ⟨by decide, by decide, ?_⟩
  norm_num

/-- C7 (amended): for inputs with pairwise-distinct basenames (so that the
basename-keyed `file_path_dict` is faithful) and any valid draw `subkeys` of
`random.sample` (duplicate-free, taken from the dict keys, of the computed
length `L`), `sample_prop` returns exactly `⌊N·p⌋` shards with no shard
repeated, an aggregate size equal to the sum of the manifest entries of
exactly the selected shards, and the per-shard size dict of the selection. -/
theorem sample_prop_spec (loadDict : List (String × Nat)) (inputs subkeys : List String)
    (pNum pDen : Nat)
    (hb : (inputs.map basename).Nodup)
    (hsn : subkeys.Nodup)
    (hsm : ∀ k ∈ subkeys, k ∈ (filePathDict inputs).map Prod.fst)
    (hlen : subkeys.length = (inputs.length * pNum) / pDen)
    (hcov : ∀ k ∈ subkeys, (pyGet loadDict k).isSome) :
    sample_prop loadDict inputs pNum pDen subkeys =
      Except.ok ((subkeys.map (fun k => (pyGet loadDict k).getD 0)).sum,
                 subkeys.length,
                 subkeys.map (fun k => pathJoin ((pyGet (filePathDict inputs) k).getD "") k),
                 subkeys.map (fun k => (k, (pyGet loadDict k).getD 0))) ∧
    (subkeys.map (fun k => pathJoin ((pyGet (filePathDict inputs) k).getD "") k)).Nodup ∧
    subkeys.length = ⌊(inputs.length : ℚ) * ((pNum : ℚ) / (pDen : ℚ))⌋₊ := by
  have hkeys := filePathDict_keys inputs hb
  have hlenfpd : (filePathDict inputs).length = inputs.length := by
    rw [filePathDict_eq inputs hb, List.length_map]
  have hcov2 : ∀ k ∈ subkeys, (pyGet (filePathDict inputs) k).isSome :=
    fun k hk => pyGet_isSome_of_mem (hsm k hk)
  have hbuild := buildSampled_eq loadDict (filePathDict inputs) subkeys [] []
    hsn (by simp) (by simp) hcov hcov2
  refine ⟨?_, ?_, ?_⟩
  · simp only [sample_prop, hbuild, List.nil_append, hlenfpd, ← hlen]
    simp only [List.map_map]
    rfl
  · have hmapeq : (subkeys.map
        (fun k => pathJoin ((pyGet (filePathDict inputs) k).getD "") k)).map basename
        = subkeys := by
      rw [List.map_map]
      have hcong : ∀ k ∈ subkeys,
          (basename ∘ fun k => pathJoin ((pyGet (filePathDict inputs) k).getD "") k) k
            = id k := by
        intro k hk
        have hkmem : k ∈ inputs.map basename := hkeys ▸ hsm k hk
        obtain ⟨i, hi, hk_eq⟩ := List.mem_map.mp hkmem
        have hkslash : ∀ c ∈ k.data, c ≠ '/' := hk_eq ▸ basename_no_slash i
        exact basename_pathJoin _ k hkslash
      rw [List.map_congr_left hcong, List.map_id]
    exact List.Nodup.of_map basename (by rw [hmapeq]; exact hsn)
  · rw [hlen, show (inputs.length : ℚ) * ((pNum : ℚ) / (pDen : ℚ)) =
        ((inputs.length * pNum : ℕ) : ℚ) / ((pDen : ℕ) : ℚ) by push_cast; ring,
        Nat.floor_div_eq_div]

/-- Witness for the amended C7: the spec scenario, proportion `1/2` over 10
shards returns exactly 5 shards. -/
theorem sample_prop_spec_witness :
    (((["s0.tar", "s1.tar", "s2.tar", "s3.tar", "s4.tar",
        "s5.tar", "s6.tar", "s7.tar", "s8.tar", "s9.tar"] : List String).map
          basename).Nodup ∧
     (["s0.tar", "s1.tar", "s2.tar", "s3.tar", "s4.tar"] : List String).Nodup ∧
     (∀ k ∈ (["s0.tar", "s1.tar", "s2.tar", "s3.tar", "s4.tar"] : List String),
        k ∈ (filePathDict ["s0.tar", "s1.tar", "s2.tar", "s3.tar", "s4.tar",
          "s5.tar", "s6.tar", "s7.tar", "s8.tar", "s9.tar"]).map Prod.fst) ∧
     (["s0.tar", "s1.tar", "s2.tar", "s3.tar", "s4.tar"] : List String).length =
       ((["s0.tar", "s1.tar", "s2.tar", "s3.tar", "s4.tar",
          "s5.tar", "s6.tar", "s7.tar", "s8.tar", "s9.tar"] : List String).length * 1) / 2 ∧
     (∀ k ∈ (["s0.tar", "s1.tar", "s2.tar", "s3.tar", "s4.tar"] : List String),
        (pyGet [("s0.tar", 11), ("s1.tar", 12), ("s2.tar", 13), ("s3.tar", 14),
            ("s4.tar", 15), ("s5.tar", 16), ("s6.tar", 17), ("s7.tar", 18),
            ("s8.tar", 19), ("s9.tar", 20)] k).isSome)) ∧
    (sample_prop [("s0.tar", 11), ("s1.tar", 12), ("s2.tar", 13), ("s3.tar", 14),
        ("s4.tar", 15), ("s5.tar", 16), ("s6.tar", 17), ("s7.tar", 18),
        ("s8.tar", 19), ("s9.tar", 20)]
        ["s0.tar", "s1.tar", "s2.tar", "s3.tar", "s4.tar",
         "s5.tar", "s6.tar", "s7.tar", "s8.tar", "s9.tar"] 1 2
        ["s0.tar", "s1.tar", "s2.tar", "s3.tar", "s4.tar"] =
      Except.ok (((["s0.tar", "s1.tar", "s2.tar", "s3.tar", "s4.tar"] : List String).map
          (fun k => (pyGet [("s0.tar", 11), ("s1.tar", 12), ("s2.tar", 13), ("s3.tar", 14),
              ("s4.tar", 15), ("s5.tar", 16), ("s6.tar", 17), ("s7.tar", 18),
              ("s8.tar", 19), ("s9.tar", 20)] k).getD 0)).sum,
        (["s0.tar", "s1.tar", "s2.tar", "s3.tar", "s4.tar"] : List String).length,
        (["s0.tar", "s1.tar", "s2.tar", "s3.tar", "s4.tar"] : List String).map
          (fun k => pathJoin ((pyGet (filePathDict ["s0.tar", "s1.tar", "s2.tar", "s3.tar",
              "s4.tar", "s5.tar", "s6.tar", "s7.tar", "s8.tar", "s9.tar"]) k).getD "") k),
        (["s0.tar", "s1.tar", "s2.tar", "s3.tar", "s4.tar"] : List String).map
          (fun k => (k, (pyGet [("s0.tar", 11), ("s1.tar", 12), ("s2.tar", 13), ("s3.tar", 14),
              ("s4.tar", 15), ("s5.tar", 16), ("s6.tar", 17), ("s7.tar", 18),
              ("s8.tar", 19), ("s9.tar", 20)] k).getD 0))) ∧
     ((["s0.tar", "s1.tar", "s2.tar", "s3.tar", "s4.tar"] : List String).map
        (fun k => pathJoin ((pyGet (filePathDict ["s0.tar", "s1.tar", "s2.tar", "s3.tar",
            "s4.tar", "s5.tar", "s6.tar", "s7.tar", "s8.tar", "s9.tar"]) k).getD "") k)).Nodup ∧
     (["s0.tar", "s1.tar", "s2.tar", "s3.tar", "s4.tar"] : List String).length =
       ⌊((["s0.tar", "s1.tar", "s2.tar", "s3.tar", "s4.tar",
           "s5.tar", "s6.tar", "s7.tar", "s8.tar", "s9.tar"] : List String).length : ℚ) *
         ((1 : ℚ) / (2 : ℚ))⌋₊) :=
  ⟨⟨by decide, by decide, by decide, by decide, by decide⟩,
   sample_prop_spec _ _ _ 1 2 (by decide) (by decide) (by decide) (by decide) (by decide)⟩

/-! ## The field-renaming loop of `preprocess` (lines 211-219)

  keys = list(sample.keys())
  for k in keys:
      if (audio_ext in k) and (audio_ext != k):
          sample[audio_ext] = sample[k]
          del sample[k]
      if (text_ext in k) and (text_ext != k):
          sample[text_ext] = sample[k]
          del sample[k]

The record is a Python dict; the loop iterates over a snapshot of its
original keys.  A failed lookup (`sample[k]` after `k` was deleted by the
audio branch of the same iteration) models the raised `KeyError`. -/

/-- Bool test: `a` is a prefix of `b` (on character lists). -/
def isPrefixB : List Char → List Char → Bool
  | [], _ => true
  | _ :: _, [] => false
  | a :: as, b :: bs => a == b && isPrefixB as bs

/-- Bool test for Python substring containment `a in b`. -/
def isInfixB (a : List Char) : List Char → Bool
  | [] => isPrefixB a []
  | b :: bs => isPrefixB a (b :: bs) || isInfixB a bs

/-- `(ext in k) and (ext != k)`: the key contains the extension as a
substring without being an exact match. -/
def properMatch (ext k : String) : Bool := isInfixB ext.data k.data && ext != k

lemma properMatch_ne {ext k : String} (h : properMatch ext k = true) : ext ≠ k := by
  unfold properMatch at h
  have := (Bool.and_eq_true _ _).mp h
  simpa using this.2

/-- One branch of the loop body for a single extension `ext`:
`sample[ext] = sample[k]; del sample[k]` guarded by the substring test. -/
def renameOne {V : Type} (ext : String) (s : List (String × V)) (k : String) :
    Except Unit (List (String × V)) :=
  if properMatch ext k then
    match pyGet s k with
    | some v => Except.ok (pyDelete (pyInsert s ext v) k)
    | none => Except.error ()
  else Except.ok s

/-- One iteration of the renaming loop at snapshot key `k`: the audio branch
followed by the text branch on the updated record. -/
def renameStep {V : Type} (ae te : String) (s : List (String × V)) (k : String) :
    Except Unit (List (String × V)) :=
  match renameOne ae s k with
  | Except.error e => Except.error e
  | Except.ok s1 => renameOne te s1 k

lemma renameOne_pos {V : Type} {ext k : String} {s : List (String × V)} {v : V}
    (hm : properMatch ext k = true) (hv : pyGet s k = some v) :
    renameOne ext s k = Except.ok (pyDelete (pyInsert s ext v) k) := by
  unfold renameOne
  rw [hm, if_pos rfl, hv]

lemma renameOne_neg {V : Type} {ext k : String} {s : List (String × V)}
    (hm : properMatch ext k = false) : renameOne ext s k = Except.ok s := by
  unfold renameOne
  rw [hm, if_neg Bool.false_ne_true]

/-- The whole renaming loop over a snapshot of the record's keys. -/
def renameFields {V : Type} (ae te : String) (d : List (String × V)) :
    Except Unit (List (String × V)) :=
  (d.map Prod.fst).foldlM (renameStep ae te) d

/-- The value held by the canonical key after the loop: the original value
`d[k]` of the *last* key `k` of `K` properly matching `ext`, or the default
when no key of `K` matches. -/
def lastMatchVal {V : Type} (ext : String) (d : List (String × V)) (K : List String)
    (dflt : Option V) : Option V :=
  K.foldl (fun acc k => if properMatch ext k then pyGet d k else acc) dflt

lemma renameLoop_char {V : Type} (ae te : String)
    (h1 : properMatch ae te = false) (h2 : properMatch te ae = false)
    (d : List (String × V)) :
    ∀ (K : List String) (s : List (String × V)),
    K.Nodup →
    (∀ j ∈ K, ¬(properMatch ae j = true ∧ properMatch te j = true)) →
    (∀ j ∈ K, (properMatch ae j = true ∨ properMatch te j = true) →
      pyGet s j = pyGet d j ∧ (pyGet d j).isSome) →
    (s.map Prod.fst).Nodup →
    ∃ s', K.foldlM (renameStep ae te) s = Except.ok s' ∧
      (∀ q, (properMatch ae q = true ∨ properMatch te q = true) → q ∈ K →
        pyGet s' q = none) ∧
      pyGet s' ae = lastMatchVal ae d K (pyGet s ae) ∧
      pyGet s' te = lastMatchVal te d K (pyGet s te) ∧
      (∀ q, q ≠ ae → q ≠ te →
        (properMatch ae q = true → q ∉ K) → (properMatch te q = true → q ∉ K) →
        pyGet s' q = pyGet s q) := by
  intro K
  induction K with
  | nil =>
    intro s _ _ _ _
    exact ⟨s, rfl, by simp, rfl, rfl, fun q _ _ _ _ => rfl⟩
  | cons k K' ih =>
    intro s hnd hdual hvals hsnd
    have hk_not : k ∉ K' := (List.nodup_cons.mp hnd).1
    have hnd' : K'.Nodup := (List.nodup_cons.mp hnd).2
    have hdual' : ∀ j ∈ K', ¬(properMatch ae j = true ∧ properMatch te j = true) :=
      fun j hj => hdual j (List.mem_cons_of_mem _ hj)
    cases hA : properMatch ae k with
    | true =>
      cases hB : properMatch te k with
      | true => exact absurd ⟨hA, hB⟩ (hdual k (List.mem_cons_self _ _))
      | false =>
        -- audio-only rename at k
        obtain ⟨hval_eq, hval_some⟩ := hvals k (List.mem_cons_self _ _) (Or.inl hA)
        obtain ⟨v, hv⟩ := Option.isSome_iff_exists.mp hval_some
        have hpsk : pyGet s k = some v := hval_eq.trans hv
        have hk_ne_ae : ae ≠ k := properMatch_ne hA
        have hae_ne_te : ae ≠ te := by
          intro e
          rw [e, hB] at hA
          exact Bool.false_ne_true hA
        have hk_ne_te : k ≠ te := by
          intro e
          rw [e, h1] at hA
          exact Bool.false_ne_true hA
        have hstep : renameStep ae te s k = Except.ok (pyDelete (pyInsert s ae v) k) := by
          unfold renameStep
          rw [renameOne_pos hA hpsk]
          exact renameOne_neg hB
        set s1 := pyDelete (pyInsert s ae v) k with hs1
        have f_nodup : (s1.map Prod.fst).Nodup :=
          nodup_keys_pyDelete _ _ (nodup_keys_pyInsert _ _ _ hsnd)
        have f_ae : pyGet s1 ae = some v := by
          rw [hs1, pyGet_pyDelete_ne _ _ _ hk_ne_ae, pyGet_pyInsert_self]
        have f_te : pyGet s1 te = pyGet s te := by
          rw [hs1, pyGet_pyDelete_ne _ _ _ (fun e => hk_ne_te e.symm),
              pyGet_pyInsert_ne _ _ _ _ (fun e => hae_ne_te e.symm)]
        have f_k : pyGet s1 k = none :=
          pyGet_pyDelete_self _ k (nodup_keys_pyInsert _ _ _ hsnd)
        have f_other : ∀ q, q ≠ ae → q ≠ k → pyGet s1 q = pyGet s q := by
          intro q hqa hqk
          rw [hs1, pyGet_pyDelete_ne _ _ _ hqk, pyGet_pyInsert_ne _ _ _ _ hqa]
        have hvals' : ∀ j ∈ K', (properMatch ae j = true ∨ properMatch te j = true) →
            pyGet s1 j = pyGet d j ∧ (pyGet d j).isSome := by
          intro j hj hm
          have hj_ne_k : j ≠ k := fun e => hk_not (e ▸ hj)
          have hj_ne_ae : j ≠ ae := by
            rcases hm with hm | hm
            · exact fun e => properMatch_ne hm e.symm
            · intro e
              rw [e, h2] at hm
              exact Bool.false_ne_true hm
          have := hvals j (List.mem_cons_of_mem _ hj) hm
          exact ⟨(f_other j hj_ne_ae hj_ne_k).trans this.1, this.2⟩
        obtain ⟨s', hfold, ih1, ih3, ih4, ih5⟩ := ih s1 hnd' hdual' hvals' f_nodup
        refine ⟨s', ?_, ?_, ?_, ?_, ?_⟩
        · rw [List.foldlM_cons, hstep]
          exact hfold
        · intro q hq hmem
          rcases List.mem_cons.mp hmem with rfl | hmem'
          · have hq_ne_ae : q ≠ ae := fun e => hk_ne_ae e.symm
            have := ih5 q hq_ne_ae hk_ne_te
              (fun _ hmem => hk_not hmem) (fun _ hmem => hk_not hmem)
            rw [this, f_k]
          · exact ih1 q hq hmem'
        · rw [f_ae] at ih3
          rw [ih3]
          simp [lastMatchVal, List.foldl_cons, hA, hv]
        · rw [f_te] at ih4
          rw [ih4]
          simp [lastMatchVal, List.foldl_cons, hB]
        · intro q hqa hqt hma hmt
          have hq_ne_k : q ≠ k := by
            intro e
            subst e
            exact hma hA (List.mem_cons_self _ _)
          have := ih5 q hqa hqt
            (fun hm hmem => hma hm (List.mem_cons_of_mem _ hmem))
            (fun hm hmem => hmt hm (List.mem_cons_of_mem _ hmem))
          rw [this, f_other q hqa hq_ne_k]
    | false =>
      cases hB : properMatch te k with
      | true =>
        -- text-only rename at k
        obtain ⟨hval_eq, hval_some⟩ := hvals k (List.mem_cons_self _ _) (Or.inr hB)
        obtain ⟨v, hv⟩ := Option.isSome_iff_exists.mp hval_some
        have hpsk : pyGet s k = some v := hval_eq.trans hv
        have hk_ne_te : te ≠ k := properMatch_ne hB
        have hae_ne_te : ae ≠ te := by
          intro e
          rw [← e, hA] at hB
          exact Bool.false_ne_true hB
        have hk_ne_ae : k ≠ ae := by
          intro e
          rw [e, h2] at hB
          exact Bool.false_ne_true hB
        have hstep : renameStep ae te s k = Except.ok (pyDelete (pyInsert s te v) k) := by
          unfold renameStep
          rw [renameOne_neg hA]
          exact renameOne_pos hB hpsk
        set s1 := pyDelete (pyInsert s te v) k with hs1
        have f_nodup : (s1.map Prod.fst).Nodup :=
          nodup_keys_pyDelete _ _ (nodup_keys_pyInsert _ _ _ hsnd)
        have f_te : pyGet s1 te = some v := by
          rw [hs1, pyGet_pyDelete_ne _ _ _ hk_ne_te, pyGet_pyInsert_self]
        have f_ae : pyGet s1 ae = pyGet s ae := by
          rw [hs1, pyGet_pyDelete_ne _ _ _ (fun e => hk_ne_ae e.symm),
              pyGet_pyInsert_ne _ _ _ _ hae_ne_te]
        have f_k : pyGet s1 k = none :=
          pyGet_pyDelete_self _ k (nodup_keys_pyInsert _ _ _ hsnd)
        have f_other : ∀ q, q ≠ te → q ≠ k → pyGet s1 q = pyGet s q := by
          intro q hqt hqk
          rw [hs1, pyGet_pyDelete_ne _ _ _ hqk, pyGet_pyInsert_ne _ _ _ _ hqt]
        have hvals' : ∀ j ∈ K', (properMatch ae j = true ∨ properMatch te j = true) →
            pyGet s1 j = pyGet d j ∧ (pyGet d j).isSome := by
          intro j hj hm
          have hj_ne_k : j ≠ k := fun e => hk_not (e ▸ hj)
          have hj_ne_te : j ≠ te := by
            rcases hm with hm | hm
            · intro e
              rw [e, h1] at hm
              exact Bool.false_ne_true hm
            · exact fun e => properMatch_ne hm e.symm
          have := hvals j (List.mem_cons_of_mem _ hj) hm
          exact ⟨(f_other j hj_ne_te hj_ne_k).trans this.1, this.2⟩
        obtain ⟨s', hfold, ih1, ih3, ih4, ih5⟩ := ih s1 hnd' hdual' hvals' f_nodup
        refine ⟨s', ?_, ?_, ?_, ?_, ?_⟩
        · rw [List.foldlM_cons, hstep]
          exact hfold
        · intro q hq hmem
          rcases List.mem_cons.mp hmem with rfl | hmem'
          · have hq_ne_te : q ≠ te := fun e => hk_ne_te e.symm
            have := ih5 q hk_ne_ae hq_ne_te
              (fun _ hmem => hk_not hmem) (fun _ hmem => hk_not hmem)
            rw [this, f_k]
          · exact ih1 q hq hmem'
        · rw [f_ae] at ih3
          rw [ih3]
          simp [lastMatchVal, List.foldl_cons, hA]
        · rw [f_te] at ih4
          rw [ih4]
          simp [lastMatchVal, List.foldl_cons, hB, hv]
        · intro q hqa hqt hma hmt
          have hq_ne_k : q ≠ k := by
            intro e
            subst e
            exact hmt hB (List.mem_cons_self _ _)
          have := ih5 q hqa hqt
            (fun hm hmem => hma hm (List.mem_cons_of_mem _ hmem))
            (fun hm hmem => hmt hm (List.mem_cons_of_mem _ hmem))
          rw [this, f_other q hqt hq_ne_k]
      | false =>
        -- no rename at k
        have hstep : renameStep ae te s k = Except.ok s := by
          unfold renameStep
          rw [renameOne_neg hA]
          exact renameOne_neg hB
        have hvals' : ∀ j ∈ K', (properMatch ae j = true ∨ properMatch te j = true) →
            pyGet s j = pyGet d j ∧ (pyGet d j).isSome :=
          fun j hj hm => hvals j (List.mem_cons_of_mem _ hj) hm
        obtain ⟨s', hfold, ih1, ih3, ih4, ih5⟩ := ih s hnd' hdual' hvals' hsnd
        refine ⟨s', ?_, ?_, ?_, ?_, ?_⟩
        · rw [List.foldlM_cons, hstep]
          exact hfold
        · intro q hq hmem
          rcases List.mem_cons.mp hmem with rfl | hmem'
          · rcases hq with hq | hq
            · rw [hA] at hq
              exact absurd hq (Bool.false_ne_true)
            · rw [hB] at hq
              exact absurd hq (Bool.false_ne_true)
          · exact ih1 q hq hmem'
        · rw [ih3]
          simp [lastMatchVal, List.foldl_cons, hA]
        · rw [ih4]
          simp [lastMatchVal, List.foldl_cons, hB]
        · intro q hqa hqt hma hmt
          exact ih5 q hqa hqt
            (fun hm hmem => hma hm (List.mem_cons_of_mem _ hmem))
            (fun hm hmem => hmt hm (List.mem_cons_of_mem _ hmem))

/-- C8 (counterexample): a field key containing *both* configured extensions
as proper substrings is not renamed — the audio branch moves its value to the
canonical audio key and deletes it, and the text branch of the same loop
iteration then reads the deleted key and raises a `KeyError`; the record
fails instead of ending up with the field under the canonical keys. -/
theorem renameFields_dual_match_keyerror :
    properMatch "flac" "a.flacjson" = true ∧
    properMatch "json" "a.flacjson" = true ∧
    renameFields "flac" "json" [("a.flacjson", (0 : Nat))] = Except.error () :=
  ⟨by decide, by decide, by decide⟩

/-- C8 (amended): provided the two configured extensions are not substrings
of one another and no single field key contains both extensions as proper
substrings (a key containing both raises a `KeyError`, see the
counterexample), the renaming loop of `preprocess` succeeds on a record with
duplicate-free keys and: every properly-matching key is deleted, the
canonical audio key ends up holding the value of the *last* audio-matching
key in iteration order (the original value if none matches), and likewise
for the text key. -/
theorem renameFields_spec {V : Type} (ae te : String) (d : List (String × V))
    (hnd : (d.map Prod.fst).Nodup)
    (h1 : properMatch ae te = false) (h2 : properMatch te ae = false)
    (hdual : ∀ k ∈ d.map Prod.fst, ¬(properMatch ae k = true ∧ properMatch te k = true)) :
    ∃ s, renameFields ae te d = Except.ok s ∧
      (∀ k ∈ d.map Prod.fst, (properMatch ae k = true ∨ properMatch te k = true) →
        pyGet s k = none) ∧
      pyGet s ae = lastMatchVal ae d (d.map Prod.fst) (pyGet d ae) ∧
      pyGet s te = lastMatchVal te d (d.map Prod.fst) (pyGet d te) := by
  obtain ⟨s, hfold, c1, c3, c4, _⟩ := renameLoop_char ae te h1 h2 d (d.map Prod.fst) d
    hnd hdual (fun j hj _ => ⟨rfl, pyGet_isSome_of_mem hj⟩) hnd
  exact ⟨s, hfold, fun k hk hm => c1 k hm hk, c3, c4⟩

/-- Witness for the amended C8: the spec scenario — a record whose audio
field key is `"000001.flac"` (and text field key `"000001.json"`) with
configured extensions `"flac"`/`"json"` has its fields moved to the
canonical keys, the originals deleted. -/
theorem renameFields_spec_witness :
    (((([("__key__", 9), ("000001.flac", 1), ("000001.json", 2)] : List (String × Nat)).map
          Prod.fst).Nodup) ∧
     properMatch "flac" "json" = false ∧
     properMatch "json" "flac" = false ∧
     (∀ k ∈ ([("__key__", 9), ("000001.flac", 1), ("000001.json", 2)] :
          List (String × Nat)).map Prod.fst,
        ¬(properMatch "flac" k = true ∧ properMatch "json" k = true))) ∧
    (∃ s, renameFields "flac" "json"
        [("__key__", 9), ("000001.flac", 1), ("000001.json", 2)] = Except.ok s ∧
      (∀ k ∈ ([("__key__", 9), ("000001.flac", 1), ("000001.json", 2)] :
          List (String × Nat)).map Prod.fst,
        (properMatch "flac" k = true ∨ properMatch "json" k = true) →
          pyGet s k = none) ∧
      pyGet s "flac" = lastMatchVal "flac"
        [("__key__", 9), ("000001.flac", 1), ("000001.json", 2)]
        (([("__key__", 9), ("000001.flac", 1), ("000001.json", 2)] :
            List (String × Nat)).map Prod.fst)
        (pyGet [("__key__", 9), ("000001.flac", 1), ("000001.json", 2)] "flac") ∧
      pyGet s "json" = lastMatchVal "json"
        [("__key__", 9), ("000001.flac", 1), ("000001.json", 2)]
        (([("__key__", 9), ("000001.flac", 1), ("000001.json", 2)] :
            List (String × Nat)).map Prod.fst)
        (pyGet [("__key__", 9), ("000001.flac", 1), ("000001.json", 2)] "json")) :=
  ⟨⟨by decide, by decide, by decide, by decide⟩,
   renameFields_spec "flac" "json" [("__key__", 9), ("000001.flac", 1), ("000001.json", 2)]
     (by decide) (by decide) (by decide) (by decide)⟩

/-! ## The text-selection step of `preprocess` (lines 247-251)

  texts = json.loads(sample[text_ext].decode("utf-8"))["text"]
  if isinstance(texts, list) and isinstance(texts[0], str) and len(texts) > 1:
      texts = random.choice(texts)
  sample["raw_text"] = texts
  sample["text"] = tokenize(texts)

The decoded JSON `"text"` value is embedded as `JTexts`; `random.choice(xs)`
is `xs[i]` for an arbitrary in-range index, parametrized here as
`pick % xs.length`; an empty list raises `IndexError` at `texts[0]`.  The
external tokenizer is an opaque collaborator `tok`. -/

inductive JTexts
  /-- A JSON string. -/
  | jstr (s : String)
  /-- A JSON array. -/
  | jlist (xs : List JTexts)
  /-- Any other JSON value. -/
  | jother

def isJStr : JTexts → Bool
  | JTexts.jstr _ => true
  | _ => false

/-- The conditional reduction of the decoded `"text"` value. -/
def selectText (texts : JTexts) (pick : Nat) : Except Unit JTexts :=
  match texts with
  | JTexts.jlist xs =>
    match xs with
    | [] => Except.error ()
    | x :: rest =>
      if isJStr x = true ∧ 1 < (x :: rest).length then
        Except.ok ((x :: rest).getD (pick % (x :: rest).length) x)
      else Except.ok (JTexts.jlist (x :: rest))
  | t => Except.ok t

/-- The text step of `preprocess`: select, then emit
`(raw_text, tokenize(raw_text))`. -/
def textStep {T : Type} (tok : JTexts → T) (texts : JTexts) (pick : Nat) :
    Except Unit (JTexts × T) :=
  match selectText texts pick with
  | Except.error e => Except.error e
  | Except.ok t => Except.ok (t, tok t)

/-- C9: a `"text"` value that is a one-element list of strings is *not*
unwrapped: `raw_text` is the one-element list itself and the tokenizer is
invoked on that list (not on the contained string); a plain string passes
through unchanged, and a list of strings with more than one element *is*
reduced to a single chosen string. -/
theorem singleton_text_list_not_unwrapped {T : Type} (tok : JTexts → T)
    (s s1 s2 : String) (pick : Nat) :
    textStep tok (JTexts.jlist [JTexts.jstr s]) pick
      = Except.ok (JTexts.jlist [JTexts.jstr s], tok (JTexts.jlist [JTexts.jstr s])) ∧
    selectText (JTexts.jstr s) pick = Except.ok (JTexts.jstr s) ∧
    selectText (JTexts.jlist [JTexts.jstr s1, JTexts.jstr s2]) pick
      = Except.ok (if pick % 2 = 0 then JTexts.jstr s1 else JTexts.jstr s2) := by
  refine ⟨rfl, rfl, ?_⟩
  rcases Nat.mod_two_eq_zero_or_one pick with h | h <;>
    simp [selectText, isJStr, h, List.getD_cons_zero, List.getD_cons_succ]

/-! ## Pipeline construction in `get_wds_dataset` (lines 302-338)

The webdataset pipeline is embedded as the list of stages the source
constructs, each recorded with the error handler the source passes to it
(`none` when the call site passes no `handler=` argument, in which case the
library default `reraise_exception` applies and errors propagate). -/

inductive Handler
  /-- `log_and_continue` (lines 165-168): log a warning, drop the record,
  continue. -/
  | logAndContinue
  deriving DecidableEq

inductive Stage
  | simpleShardList
  | detshuffle (bufsize initial seed : Nat)
  | splitByNode
  | splitByWorker
  | tarfileToSamples (handler : Option Handler)
  | sampleShuffle (bufsize initial : Nat)
  | mapPreprocess (handler : Option Handler)
  | toTuple (keys : List String)
  | batched (batchSize : Nat) (allowShort : Bool)
  deriving DecidableEq

/-- The pipeline stage list built by `get_wds_dataset`: shard list, then for
training detshuffle / split-by-node / split-by-worker /
tarfile-to-samples(`handler=log_and_continue`) / sample shuffle (for
evaluation only split-by-worker / tarfile-to-samples(`handler=
log_and_continue`)), then `wds.map(preprocess)` — called with *no* handler
argument — tuple extraction, and batching (partial batches allowed only for
evaluation). -/
def wdsPipeline (isTrain : Bool) (seed batchSize : Nat) : List Stage :=
  [Stage.simpleShardList] ++
  (if isTrain then
    [Stage.detshuffle 2000 500 seed, Stage.splitByNode, Stage.splitByWorker,
     Stage.tarfileToSamples (some Handler.logAndContinue),
     Stage.sampleShuffle 5000 1000]
  else
    [Stage.splitByWorker, Stage.tarfileToSamples (some Handler.logAndContinue)]) ++
  [Stage.mapPreprocess none,
   Stage.toTuple ["__url__", "__key__", "waveform", "text", "raw_text",
     "audio_name", "text_name"],
   Stage.batched batchSize (!isTrain)]

/-- Every archive-reading stage carries the skip-and-continue handler. -/
def stageHandlerOK : Stage → Bool
  | Stage.tarfileToSamples h => h = some Handler.logAndContinue
  | _ => true

/-- C3 (counterexample): in both the training and the evaluation pipeline,
the `wds.map(preprocess)` stage — where audio decoding and text-JSON parsing
run — is constructed with *no* `handler` argument, so its failures fall to
webdataset's default `reraise_exception` and propagate to the caller; only
`tarfile_to_samples` is given `log_and_continue`.  This refutes the claim
that every preprocessing failure is routed to the record-level
skip-and-continue handler. -/
theorem mapPreprocess_no_handler :
    Stage.mapPreprocess none ∈ wdsPipeline true 0 4 ∧
    Stage.mapPreprocess (some Handler.logAndContinue) ∉ wdsPipeline true 0 4 ∧
    Stage.mapPreprocess none ∈ wdsPipeline false 0 4 ∧
    Stage.mapPreprocess (some Handler.logAndContinue) ∉ wdsPipeline false 0 4 := by
  decide

/-- C3 (amended): archive-entry extraction failures *are* routed to
`log_and_continue` — every `tarfile_to_samples` stage of either pipeline
carries it (records with unreadable entries are dropped with a warning and
the shard continues) — but the `preprocess` map stage is constructed without
a handler, so failures inside `preprocess` (audio decode errors, malformed
text JSON, missing fields) are not handled by the skip-and-continue handler
and propagate to the caller under webdataset's default. -/
theorem pipeline_handler_wiring (isTrain : Bool) (seed batchSize : Nat) :
    Stage.tarfileToSamples (some Handler.logAndContinue) ∈
      wdsPipeline isTrain seed batchSize ∧
    Stage.mapPreprocess none ∈ wdsPipeline isTrain seed batchSize ∧
    (wdsPipeline isTrain seed batchSize).all stageHandlerOK = true := by
  cases isTrain <;> simp [wdsPipeline, stageHandlerOK]
